import Mathlib

/-!
Verification of the MakePDF document-conversion orchestrator
(`packages/MakePDF/src/convert.ts`) and its attachment-handling glue
(`packages/MakePDF/src/makepdf.ts`), shallowly embedded in Lean.

JavaScript strings are modelled as Lean `String` (a wrapper around
`List Char`); the JS string operations the code uses
(`split`, `replace` with a string pattern, `substring`, `lastIndexOf`)
are re-implemented below with JS semantics.  The node path join is
modelled for separator-free tails (its behaviour on the inputs the code
passes).  Asynchronous effects are made explicit: the filesystem, the
child-process outcome and per-attempt file visibility are parameters,
and the pipeline returns an event trace recording the order of the
observable steps.
-/

namespace MakePDF

/-- Bytes of a document, as a list of byte values. -/
abbrev Bytes := List Nat

/-! ### JS string primitives -/

/-- Does `pat` occur as a prefix of `l`?  (Helper for JS `replace`.) -/
def hasPrefixL : List Char → List Char → Bool
  | [], _ => true
  | _ :: _, [] => false
  | p :: ps, c :: cs => p = c && hasPrefixL ps cs

/-- Does `pat` occur as a contiguous substring of `l`? -/
def containsSub (pat : List Char) : List Char → Bool
  | [] => pat.isEmpty
  | c :: rest => hasPrefixL pat (c :: rest) || containsSub pat rest

/-- JS `String.prototype.replace` with a string pattern: replace the first
occurrence of `pat` by `rep`, leaving the string unchanged when `pat` does
not occur. -/
def replFirstAux (pat rep : List Char) : List Char → List Char
  | [] => []
  | c :: rest =>
    if hasPrefixL pat (c :: rest) then rep ++ (c :: rest).drop pat.length
    else c :: replFirstAux pat rep rest

/-- JS `s.replace(pat, rep)` (string pattern: first occurrence only). -/
def jsReplaceFirst (s pat rep : String) : String :=
  ⟨replFirstAux pat.data rep.data s.data⟩

/-- JS `s.split(sep)` for a one-character separator, on char lists.
`split` never returns an empty array: splitting the empty string gives
`[""]`. -/
def splitChAux (sep : Char) : List Char → List (List Char)
  | [] => [[]]
  | c :: rest =>
    if c = sep then [] :: splitChAux sep rest
    else
      match splitChAux sep rest with
      | [] => [[c]]
      | w :: ws => (c :: w) :: ws

/-- JS `s.split(sep)` for a one-character separator. -/
def jsSplitCh (sep : Char) (s : String) : List String :=
  (splitChAux sep s.data).map String.mk

/-- Accumulator for `jsLastIndexOf`: index of the last occurrence of `c`
at or after position `i`, with `best` the best index found so far. -/
def lastIdxAux (c : Char) : List Char → Int → Int → Int
  | [], _, best => best
  | x :: xs, i, best => lastIdxAux c xs (i + 1) (if x = c then i else best)

/-- JS `s.lastIndexOf(c)`: index of the last occurrence of `c` in `s`,
`-1` when absent. -/
def jsLastIndexOf (s : String) (c : Char) : Int :=
  lastIdxAux c s.data 0 (-1)

/-- Clamp a JS index argument into `[0, len]` (JS `substring` treats
negative arguments as `0` and arguments beyond the length as the length). -/
def clampIdx (len : Nat) (i : Int) : Nat :=
  if i < 0 then 0 else min i.toNat len

/-- JS `s.substring(a, b)`: clamp both indices into range and swap them
when out of order. -/
def jsSubstring (s : String) (a b : Int) : String :=
  let len := s.data.length
  let a2 := clampIdx len a
  let b2 := clampIdx len b
  ⟨((s.data.drop (min a2 b2)).take (max a2 b2 - min a2 b2))⟩

/-- JS `s.substring(a)` (one-argument form: up to the end of the string). -/
def jsSubstringFrom (s : String) (a : Int) : String :=
  jsSubstring s a (s.data.length : Int)

/-- JS `a || b` on an optional environment-variable value: the default is
used when the variable is unset or set to the empty string (both falsy). -/
def jsOr (o : Option String) (d : String) : String :=
  match o with
  | none => d
  | some v => if v = "" then d else v

/-! ### BinaryLocator: the `soffice` task of `convert.ts` -/

/-- Ambient environment the `soffice` task reads: the platform identifier
and the environment variables mentioned in the candidate-path table. -/
structure Env where
  platform : String
  officePath : Option String
  programFilesX86 : Option String
  programFiles : Option String

/-- The node path join on Windows: join with a backslash and normalise
forward slashes (modelled for inputs without redundant separators). -/
def winJoin (a b : String) : String :=
  ⟨(a.data ++ '\\' :: b.data).map (fun c => if c = '/' then '\\' else c)⟩

/-- The Linux candidate list: the first entry derives from the
`OFFICE_PATH` environment variable (default `/opt/libreoffice`) with the
first occurrence of `opt` replaced by `usr/bin`. -/
def linuxPaths (officePath : Option String) : List String :=
  [ jsReplaceFirst (jsOr officePath "/opt/libreoffice") "opt" "usr/bin",
    "/usr/bin/libreoffice",
    "/usr/bin/soffice",
    "/snap/bin/libreoffice" ]

/-- The candidate-path table of the `soffice` task: per-platform ordered
install locations, `none` for an unsupported platform. -/
def sofficePaths (e : Env) : Option (List String) :=
  if e.platform = "darwin" then
    some ["/Applications/LibreOffice.app/Contents/MacOS/soffice"]
  else if e.platform = "linux" then
    some (linuxPaths e.officePath)
  else if e.platform = "win32" then
    some
      [ winJoin (jsOr e.programFilesX86 "C:\\Program Files (x86)") "LIBREO~1/program/soffice.exe",
        winJoin (jsOr e.programFilesX86 "C:\\Program Files (x86)") "LibreOffice/program/soffice.exe",
        winJoin (jsOr e.programFiles "C:\\Program Files") "LibreOffice/program/soffice.exe" ]
  else none

/-- Failures of the locator. -/
inductive LocateError
  | unsupported
  | notFound
deriving DecidableEq, Repr

/-- The `soffice` task, instrumented: its result, and the list of paths it
probes for existence (`async.filter` probes every candidate, in list
order, and the task keeps the first of the survivors). -/
def locateWithChecks (e : Env) (fs : String → Bool) :
    Except LocateError String × List String :=
  match sofficePaths e with
  | none => (.error .unsupported, [])
  | some ps =>
    (match ps.filter fs with
     | [] => .error .notFound
     | p :: _ => .ok p,
     ps)

/-- The result of the `soffice` task. -/
def locate (e : Env) (fs : String → Bool) : Except LocateError String :=
  (locateWithChecks e fs).1

/-! ### Locator lemmas -/

/-- The head of a filtered list is the first element satisfying the
predicate. -/
theorem head?_filter_eq_find? (f : α → Bool) (l : List α) :
    (l.filter f).head? = l.find? f := by
  induction l with
  | nil => rfl
  | cons a l ih =>
    by_cases h : f a = true
    · simp [List.filter_cons, List.find?_cons, h]
    · simp only [Bool.not_eq_true] at h
      simp [List.filter_cons, List.find?_cons, h, ih]

/-- Replacing a pattern that does not occur is the identity. -/
theorem replFirstAux_of_not_contains (pat rep : List Char) (l : List Char)
    (h : containsSub pat l = false) : replFirstAux pat rep l = l := by
  induction l with
  | nil => rfl
  | cons c rest ih =>
    simp only [containsSub, Bool.or_eq_false_iff] at h
    simp [replFirstAux, h.1, ih h.2]

/-- Claim C3: for every supported platform and every filesystem state, the
locator probes exactly the candidate list of the platform, in order, and
returns the first candidate that exists; when no candidate exists it
returns the not-found failure. -/
theorem soffice_locates_first_existing (e : Env) (fs : String → Bool)
    (ps : List String) (h : sofficePaths e = some ps) :
    (locateWithChecks e fs).2 = ps ∧
    locate e fs =
      (match ps.find? fs with
       | some p => .ok p
       | none => .error .notFound) := by
  unfold locate locateWithChecks
  rw [h]
  refine ⟨rfl, ?_⟩
  dsimp only
  rcases hf : ps.filter fs with _ | ⟨p, rest⟩
  · have : ps.find? fs = none := by
      rw [← head?_filter_eq_find?, hf]; rfl
    rw [this]
  · have : ps.find? fs = some p := by
      rw [← head?_filter_eq_find?, hf]; rfl
    rw [this]

/-- Witness for C3: on Linux with only `/usr/bin/soffice` present, the
locator returns `/usr/bin/soffice` (the first existing candidate). -/
theorem soffice_locates_first_existing_witness :
    locate ⟨"linux", none, none, none⟩ (fun p => p == "/usr/bin/soffice") =
      .ok "/usr/bin/soffice" := by
  have h := soffice_locates_first_existing ⟨"linux", none, none, none⟩
    (fun p => p == "/usr/bin/soffice")
    (linuxPaths none) (by decide)
  rw [h.2]
  rfl

/-- Claim C5: on every platform outside the closed set
darwin, linux, win32, the locator immediately fails with the
unsupported-platform error and probes no path at all, whatever the
filesystem looks like. -/
theorem soffice_unsupported_platform (e : Env) (fs : String → Bool)
    (h : e.platform ∉ (["darwin", "linux", "win32"] : List String)) :
    locateWithChecks e fs = (.error .unsupported, []) := by
  simp only [List.mem_cons, List.not_mem_nil, or_false, not_or] at h
  unfold locateWithChecks sofficePaths
  rw [if_neg h.1, if_neg h.2.1, if_neg h.2.2]

/-- Witness for C5: on `freebsd` the locator fails unsupported with an
empty probe list. -/
theorem soffice_unsupported_platform_witness :
    locateWithChecks ⟨"freebsd", none, none, none⟩ (fun _ => true) =
      (.error .unsupported, []) :=
  soffice_unsupported_platform ⟨"freebsd", none, none, none⟩ (fun _ => true)
    (by decide)

/-- Counterexample to claim C4: the environment value is not substituted
verbatim.  With the variable set to `/opt/lo`, the candidate list holds
`/usr/bin/lo` (first occurrence of `opt` rewritten to `usr/bin`) and the
value `/opt/lo` itself appears nowhere. -/
theorem office_env_not_verbatim :
    linuxPaths (some "/opt/lo") =
      ["/usr/bin/lo", "/usr/bin/libreoffice", "/usr/bin/soffice",
       "/snap/bin/libreoffice"] ∧
    "/opt/lo" ∉ linuxPaths (some "/opt/lo") := by
  constructor
  · rfl
  · decide

/-- Claim C4 as amended: on Linux exactly one candidate (the first) is
derived from the environment variable — the other three candidates never
depend on it — and the value of the variable first has its first occurrence of
`opt` replaced by `usr/bin`, so a nonempty value that does not contain
`opt` appears verbatim as the first candidate. -/
theorem office_env_override_replaced (o : Option String) :
    (linuxPaths o).drop 1 =
      ["/usr/bin/libreoffice", "/usr/bin/soffice", "/snap/bin/libreoffice"] ∧
    (∀ V : String, containsSub ("opt".data) V.data = false → V ≠ "" →
      linuxPaths (some V) =
        V :: (linuxPaths o).drop 1) := by
  refine ⟨rfl, ?_⟩
  intro V hsub hne
  obtain ⟨l⟩ := V
  simp only [linuxPaths, List.drop_succ_cons, List.drop_zero, jsOr,
    jsReplaceFirst, if_neg hne]
  rw [replFirstAux_of_not_contains _ _ _ hsub]

/-- Witness for C4 (amended): the value `/custom/lo` contains no `opt` and
appears verbatim as the first candidate. -/
theorem office_env_override_replaced_witness :
    linuxPaths (some "/custom/lo") =
      "/custom/lo" :: (linuxPaths none).drop 1 :=
  (office_env_override_replaced none).2 "/custom/lo" (by decide) (by decide)

/-! ### ConversionInvoker: command-line construction -/

/-- The expected output filename of the `loadDestination` task:
the template of the string source dot format-split-on-colon-first — the qualifier after `:` is
stripped, the leading dot of the format is kept. -/
def destName (format : String) : String :=
  "source." ++ (jsSplitCh ':' format).headD ""

/-- The argument list of the `convert` task: a command string is built by
template interpolation and then split on single spaces. -/
def buildArgs (installDir tempDir format : String) : List String :=
  jsSplitCh ' '
    ("-env:UserInstallation=file://" ++ installDir
      ++ " --headless --convert-to " ++ format
      ++ " --outdir " ++ tempDir
      ++ " " ++ (tempDir ++ "/source"))

/-! ### OutputRetriever: the bounded retry of `loadDestination` -/

/-- `async.retry` attempt budget (`times: 3`). -/
def retryTimes : Nat := 3

/-- `async.retry` pause between attempts, in milliseconds
(`interval: 200`). -/
def retryInterval : Nat := 200

/-- `async.retry`: run attempt `k`, and on failure retry with the next
attempt number while the remaining budget lasts.  Returns the final
result together with the number of attempts actually performed. -/
def retryCount (f : Nat → Option α) (k : Nat) : Nat → Option α × Nat
  | 0 => (none, 0)
  | remaining + 1 =>
    match f k with
    | some a => (some a, 1)
    | none =>
      let r := retryCount f (k + 1) remaining
      (r.1, r.2 + 1)

/-! ### ConversionPipeline: `convert` as a whole -/

/-- The two disposable directories of one conversion run. -/
structure Workspace where
  tempDir : String
  installDir : String

/-- Failure taxonomy of one run of `convert`. -/
inductive ConvError
  | unsupportedPlatform
  | binaryNotFound
  | writeFailed
  | engineFailed
  | readFailed
deriving DecidableEq, Repr

/-- Observable events of one run, in the order they happen. -/
inductive Ev
  | locateDone
  | sourceWritten
  | engineInvoke
  | engineExit
  | readAttempt (k : Nat)
  | removeTemp
  | removeInstall
  | callbackInvoked
deriving DecidableEq, Repr

/-- External world of one run: the ambient environment, the filesystem
seen by the locator, whether writing the staged source succeeds, the
exit outcome of the engine given binary and arguments, the files present in
the staging directory after the engine exits, and per-attempt visibility
of those files (the exit/flush race). -/
structure World where
  env : Env
  fsExists : String → Bool
  writeOk : Bool
  engineOk : String → List String → Bool
  outFile : String → Option Bytes
  availAt : Nat → Bool

/-- One read attempt of the `loadDestination` retry loop: `readFile`
succeeds when the file is already visible at attempt `k`. -/
def readAttemptFn (w : World) (path : String) (k : Nat) : Option Bytes :=
  if w.availAt k then w.outFile path else none

/-- Trace of the read attempts numbered `1..n`. -/
def readsList (n : Nat) : List Ev :=
  (List.range n).map (fun i => Ev.readAttempt (i + 1))

/-- The final callback of `async.auto`: remove the staging directory,
remove the profile directory, then hand the outcome to the caller. -/
def finish (r : Except ConvError Bytes) (evs : List Ev) :
    Except ConvError Bytes × List Ev :=
  (r, evs ++ [Ev.removeTemp, Ev.removeInstall, Ev.callbackInvoked])

/-- One run of `convert`: locate the binary and stage the source (the two
dependency-free tasks), then invoke the engine, then retry-read the
produced output; the final callback always tears the workspace down
before reporting.  On an unsupported platform the locator fails
synchronously, before the staging write is started. -/
def run (w : World) (format : String) (ws : Workspace) :
    Except ConvError Bytes × List Ev :=
  match locate w.env w.fsExists with
  | .error .unsupported =>
    finish (.error .unsupportedPlatform) [Ev.locateDone]
  | .error .notFound =>
    finish (.error .binaryNotFound) [Ev.locateDone, Ev.sourceWritten]
  | .ok bin =>
    if w.writeOk then
      if w.engineOk bin (buildArgs ws.installDir ws.tempDir format) then
        let path := ws.tempDir ++ "/" ++ destName format
        match retryCount (readAttemptFn w path) 1 retryTimes with
        | (some b, n) =>
          finish (.ok b)
            ([Ev.locateDone, Ev.sourceWritten, Ev.engineInvoke,
              Ev.engineExit] ++ readsList n)
        | (none, n) =>
          finish (.error .readFailed)
            ([Ev.locateDone, Ev.sourceWritten, Ev.engineInvoke,
              Ev.engineExit] ++ readsList n)
      else
        finish (.error .engineFailed)
          [Ev.locateDone, Ev.sourceWritten, Ev.engineInvoke, Ev.engineExit]
    else
      finish (.error .writeFailed) [Ev.locateDone, Ev.sourceWritten]

/-- The trace of every run has one of three shapes: failure before invocation,
failure at invocation, or invocation followed by read attempts — always
closed by the teardown-and-callback suffix. -/
theorem run_shape (w : World) (format : String) (ws : Workspace) :
    ∃ r : Except ConvError Bytes,
      (run w format ws).1 = r ∧
      ((run w format ws).2 =
          [Ev.locateDone] ++ [Ev.removeTemp, Ev.removeInstall, Ev.callbackInvoked] ∨
        (run w format ws).2 =
          [Ev.locateDone, Ev.sourceWritten] ++
            [Ev.removeTemp, Ev.removeInstall, Ev.callbackInvoked] ∨
        ∃ n, (run w format ws).2 =
          [Ev.locateDone, Ev.sourceWritten, Ev.engineInvoke, Ev.engineExit] ++
            readsList n ++
            [Ev.removeTemp, Ev.removeInstall, Ev.callbackInvoked]) := by
  unfold run
  rcases locate w.env w.fsExists with e | bin
  · rcases e with _ | _
    · exact ⟨_, rfl, Or.inl rfl⟩
    · exact ⟨_, rfl, Or.inr (Or.inl rfl)⟩
  · by_cases hw : w.writeOk
    · by_cases he : w.engineOk bin (buildArgs ws.installDir ws.tempDir format)
      · simp only [hw, he, if_true]
        rcases hr : retryCount
            (readAttemptFn w (ws.tempDir ++ "/" ++ destName format)) 1
            retryTimes with ⟨res, n⟩
        rcases res with _ | b
        · exact ⟨_, rfl, Or.inr (Or.inr ⟨n, by simp [finish]⟩)⟩
        · exact ⟨_, rfl, Or.inr (Or.inr ⟨n, by simp [finish]⟩)⟩
      · simp only [hw, if_true, he, if_false]
        exact ⟨_, rfl, Or.inr (Or.inr ⟨0, by simp [finish, readsList]⟩)⟩
    · simp only [hw, if_false]
      exact ⟨_, rfl, Or.inr (Or.inl rfl)⟩

/-- A read-attempt event is never a teardown or callback event. -/
theorem readsList_mem (e : Ev) (n : Nat) (h : e ∈ readsList n) :
    ∃ k, e = Ev.readAttempt k := by
  simp only [readsList, List.mem_map, List.mem_range] at h
  obtain ⟨i, _, hi⟩ := h
  exact ⟨i + 1, hi.symm⟩

/-- Claim C1: on every exit path of a run, the staging directory and the
profile directory are both removed exactly once, and both removals happen
before the result callback is invoked (which also fires exactly once). -/
theorem convert_teardown_every_path (w : World) (format : String)
    (ws : Workspace) :
    ∃ pre : List Ev,
      (run w format ws).2 =
        pre ++ [Ev.removeTemp, Ev.removeInstall, Ev.callbackInvoked] ∧
      pre.count Ev.removeTemp = 0 ∧ pre.count Ev.removeInstall = 0 ∧
      pre.count Ev.callbackInvoked = 0 ∧
      (run w format ws).2.count Ev.removeTemp = 1 ∧
      (run w format ws).2.count Ev.removeInstall = 1 ∧
      (run w format ws).2.count Ev.callbackInvoked = 1 := by
  obtain ⟨r, -, h1 | h2 | ⟨n, h3⟩⟩ := run_shape w format ws
  · refine ⟨[Ev.locateDone], h1, by decide, by decide, by decide, ?_, ?_, ?_⟩ <;>
      rw [h1] <;> decide
  · refine ⟨[Ev.locateDone, Ev.sourceWritten], h2, by decide, by decide,
      by decide, ?_, ?_, ?_⟩ <;> rw [h2] <;> decide
  · have hre : ∀ e, e ∈ readsList n → e = Ev.removeTemp ∨
        e = Ev.removeInstall ∨ e = Ev.callbackInvoked → False := by
      intro e he hor
      obtain ⟨k, hk⟩ := readsList_mem e n he
      rcases hor with h | h | h <;> rw [hk] at h <;> exact Ev.noConfusion h
    have hcount : ∀ x : Ev, (x = Ev.removeTemp ∨ x = Ev.removeInstall ∨
        x = Ev.callbackInvoked) → (readsList n).count x = 0 := by
      intro x hx
      rw [List.count_eq_zero]
      intro hmem
      exact hre x hmem hx
    refine ⟨[Ev.locateDone, Ev.sourceWritten, Ev.engineInvoke,
      Ev.engineExit] ++ readsList n, by rw [h3], ?_, ?_, ?_, ?_, ?_, ?_⟩
    · simp only [List.count_append]
      rw [hcount _ (Or.inl rfl)]
      decide
    · simp only [List.count_append]
      rw [hcount _ (Or.inr (Or.inl rfl))]
      decide
    · simp only [List.count_append]
      rw [hcount _ (Or.inr (Or.inr rfl))]
      decide
    · rw [h3]
      simp only [List.count_append]
      rw [hcount _ (Or.inl rfl)]
      decide
    · rw [h3]
      simp only [List.count_append]
      rw [hcount _ (Or.inr (Or.inl rfl))]
      decide
    · rw [h3]
      simp only [List.count_append]
      rw [hcount _ (Or.inr (Or.inr rfl))]
      decide

/-- Claim C7: stages run in dependency order.  Whenever the engine is
invoked, both the locator result and the staged source write precede the
invocation in the trace; and every output-read attempt comes strictly
after the engine-exit event. -/
theorem pipeline_stage_order (w : World) (format : String) (ws : Workspace) :
    (∀ i, (run w format ws).2.get? i = some Ev.engineInvoke →
      ∃ j k, j < i ∧ k < i ∧
        (run w format ws).2.get? j = some Ev.locateDone ∧
        (run w format ws).2.get? k = some Ev.sourceWritten) ∧
    (∀ i n, (run w format ws).2.get? i = some (Ev.readAttempt n) →
      ∃ j, j < i ∧ (run w format ws).2.get? j = some Ev.engineExit) := by
  obtain ⟨r, -, h1 | h2 | ⟨m, h3⟩⟩ := run_shape w format ws
  · rw [h1]
    constructor
    · intro i hi
      exfalso
      have := List.get?_mem hi
      revert this; decide
    · intro i n hi
      exfalso
      have := List.get?_mem hi
      simp at this
  · rw [h2]
    constructor
    · intro i hi
      exfalso
      have := List.get?_mem hi
      revert this; decide
    · intro i n hi
      exfalso
      have := List.get?_mem hi
      simp at this
  · rw [h3]
    simp only [List.cons_append, List.nil_append]
    constructor
    · intro i hi
      refine ⟨0, 1, ?_, ?_, rfl, rfl⟩ <;>
      · rcases i with _ | _ | i
        · simp at hi
        · simp at hi
        · omega
    · intro i n hi
      refine ⟨3, ?_, rfl⟩
      rcases i with _ | _ | _ | _ | i
      · simp at hi
      · simp at hi
      · simp at hi
      · simp at hi
      · omega

/-- Unfolding lemma: with budget `r + 1`, attempt `k` runs, and on failure
the loop retries with attempt `k + 1` and budget `r`, adding one to the
attempt count. -/
theorem retryCount_succ (f : Nat → Option α) (k r : Nat) :
    retryCount f k (r + 1) =
      match f k with
      | some a => (some a, 1)
      | none => ((retryCount f (k + 1) r).1, (retryCount f (k + 1) r).2 + 1) :=
  rfl

/-- Claim C6: the output retriever makes at most 3 read attempts, 200ms
apart.  If the file first becomes readable at attempt `k ≤ 3` it succeeds
after exactly `k` attempts, and if it never becomes readable it fails
after exactly 3 attempts. -/
theorem retry_bound_three_attempts (f : Nat → Option Bytes) (b : Bytes)
    (k : Nat) (h1 : 1 ≤ k) (h3 : k ≤ retryTimes)
    (hk : f k = some b) (hb : ∀ j, 1 ≤ j → j < k → f j = none) :
    retryCount f 1 retryTimes = (some b, k) ∧
    (∀ g : Nat → Option Bytes, (∀ j, g j = none) →
      retryCount g 1 retryTimes = (none, retryTimes)) ∧
    retryTimes = 3 ∧ retryInterval = 200 := by
  refine ⟨?_, ?_, rfl, rfl⟩
  · have h3' : k ≤ 3 := h3
    interval_cases k
    · show retryCount f 1 (2 + 1) = (some b, 1)
      rw [retryCount_succ, hk]
    · have e1 := hb 1 (by omega) (by omega)
      show retryCount f 1 (2 + 1) = (some b, 2)
      rw [retryCount_succ, e1]
      show ((retryCount f 2 (1 + 1)).1, (retryCount f 2 (1 + 1)).2 + 1) = _
      rw [retryCount_succ, hk]
    · have e1 := hb 1 (by omega) (by omega)
      have e2 := hb 2 (by omega) (by omega)
      show retryCount f 1 (2 + 1) = (some b, 3)
      rw [retryCount_succ, e1]
      show ((retryCount f 2 (1 + 1)).1, (retryCount f 2 (1 + 1)).2 + 1) = _
      rw [retryCount_succ, e2]
      show ((retryCount f 3 (0 + 1)).1 , (retryCount f 3 (0 + 1)).2 + 1 + 1) = _
      rw [retryCount_succ, hk]
  · intro g hg
    show retryCount g 1 (2 + 1) = (none, 3)
    rw [retryCount_succ, hg 1]
    show ((retryCount g 2 (1 + 1)).1, (retryCount g 2 (1 + 1)).2 + 1) = _
    rw [retryCount_succ, hg 2]
    show ((retryCount g 3 (0 + 1)).1 , (retryCount g 3 (0 + 1)).2 + 1 + 1) = _
    rw [retryCount_succ, hg 3]
    rfl

/-- Witness for C6: a file readable only from the second attempt on is
retrieved with exactly 2 attempts. -/
theorem retry_bound_three_attempts_witness :
    retryCount (fun j => if j = 2 then some ([80] : Bytes) else none) 1
      retryTimes = (some [80], 2) :=
  (retry_bound_three_attempts
    (fun j => if j = 2 then some ([80] : Bytes) else none) [80] 2
    (by decide) (by decide) (by decide)
    (fun j hj1 hj2 => by
      have hj : j = 1 := by omega
      subst hj
      rfl)).1

/-! ### Worked runs for the end-to-end claims -/

/-- Example workspace directory pair. -/
def exWs : Workspace := ⟨"/tmp/t", "/tmp/i"⟩

/-- A world whose engine writes the bytes `PDF` to `source.pdf` (the
dotless-extension filename) in the staging directory and exits 0. -/
def engineWritesPlain : World :=
  ⟨⟨"darwin", none, none, none⟩, fun _ => true, true, fun _ _ => true,
   fun p => if p = "/tmp/t/source.pdf" then some [80, 68, 70] else none,
   fun _ => true⟩

/-- A world whose engine writes the bytes `PDF` to `source..pdf` (the
filename the code actually polls for target format `.pdf`) and exits 0. -/
def engineWritesDotted : World :=
  ⟨⟨"darwin", none, none, none⟩, fun _ => true, true, fun _ _ => true,
   fun p => if p = "/tmp/t/source..pdf" then some [80, 68, 70] else none,
   fun _ => true⟩

/-- Counterexample to claim C2: the leading dot of the target format is
not stripped.  For target format `.pdf` the retriever polls
`source..pdf`, so a run against an engine that writes its output to
`source.pdf` and exits 0 exhausts the read retries and fails instead of
returning the bytes the engine wrote. -/
theorem convert_output_name_counterexample :
    destName ".pdf" = "source..pdf" ∧
    "source..pdf" ≠ "source.pdf" ∧
    (run engineWritesPlain ".pdf" exWs).1 = .error .readFailed := by
  refine ⟨rfl, by decide, rfl⟩

/-- Claim C2 as amended: for every target format, the retriever polls
`source.<format with any colon-qualifier stripped>` — keeping the
leading dot of the format — inside the staging directory; a run whose engine
exits 0 after writing bytes `b` to that file returns exactly `b`. -/
theorem convert_output_qualifier_stripped (format : String) (ws : Workspace)
    (w : World) (b : Bytes)
    (hplat : w.env.platform = "darwin")
    (hfs : ∀ p, w.fsExists p = true)
    (hw : w.writeOk = true)
    (heng : ∀ bin args, w.engineOk bin args = true)
    (hav : ∀ k, w.availAt k = true)
    (hout : w.outFile (ws.tempDir ++ "/" ++ destName format) = some b) :
    (run w format ws).1 = .ok b := by
  have hloc : locate w.env w.fsExists =
      .ok "/Applications/LibreOffice.app/Contents/MacOS/soffice" := by
    unfold locate locateWithChecks sofficePaths
    rw [hplat]
    simp [hfs]
  have hread : readAttemptFn w (ws.tempDir ++ "/" ++ destName format) 1 =
      some b := by
    unfold readAttemptFn
    rw [hav 1, if_pos rfl, hout]
  simp only [run, hloc, hw, heng, if_true]
  rw [show retryTimes = 2 + 1 from rfl, retryCount_succ, hread]
  rfl

/-- Witness for C2 (amended): an engine writing to `source..pdf` makes the
run succeed with exactly those bytes. -/
theorem convert_output_qualifier_stripped_witness :
    (run engineWritesDotted ".pdf" exWs).1 = .ok [80, 68, 70] :=
  convert_output_qualifier_stripped ".pdf" exWs engineWritesDotted
    [80, 68, 70] rfl (fun _ => rfl) rfl (fun _ _ => rfl) (fun _ => rfl)
    (by decide)

/-- Witness for C7: in a worked run the engine invocation sits at index 2
of the trace, after the locator event and the staging write. -/
theorem pipeline_stage_order_witness :
    ∃ j k, j < 2 ∧ k < 2 ∧
      (run engineWritesDotted ".pdf" exWs).2.get? j = some Ev.locateDone ∧
      (run engineWritesDotted ".pdf" exWs).2.get? k = some Ev.sourceWritten :=
  (pipeline_stage_order engineWritesDotted ".pdf" exWs).1 2 (by decide)

/-! ### Splitting lemmas for the argument list -/

/-- `split` never produces an empty array. -/
theorem splitChAux_ne_nil (sep : Char) (l : List Char) :
    splitChAux sep l ≠ [] := by
  cases l with
  | nil => simp [splitChAux]
  | cons c rest =>
    unfold splitChAux
    by_cases h : c = sep
    · simp [h]
    · rw [if_neg h]
      cases hsp : splitChAux sep rest <;> simp

/-- Splitting a string that starts with a separator-free word followed by
a separator peels the word off. -/
theorem splitChAux_append_sep (sep : Char) (xs ys : List Char)
    (h : sep ∉ xs) :
    splitChAux sep (xs ++ sep :: ys) = xs :: splitChAux sep ys := by
  induction xs with
  | nil => simp [splitChAux]
  | cons x xs ih =>
    simp only [List.mem_cons, not_or] at h
    have hx : ¬ x = sep := fun hxs => h.1 hxs.symm
    simp only [List.cons_append]
    rw [splitChAux]
    rw [if_neg hx, ih h.2]

/-- Splitting a separator-free string yields that string alone. -/
theorem splitChAux_no_sep (sep : Char) (xs : List Char) (h : sep ∉ xs) :
    splitChAux sep xs = [xs] := by
  induction xs with
  | nil => rfl
  | cons x xs ih =>
    simp only [List.mem_cons, not_or] at h
    have hx : ¬ x = sep := fun hxs => h.1 hxs.symm
    unfold splitChAux
    rw [if_neg hx, ih h.2]

/-- Structure eta: rebuilding a string from its characters is the
identity. -/
theorem mk_data_eq (s : String) : String.mk s.data = s := rfl

/-- Counterexample to claim C8: the argument list is produced by splitting
a command string on single spaces, so a staging directory whose path
contains a space is torn into several arguments instead of appearing as
the single output-directory argument and the single input-file path. -/
theorem convert_args_space_counterexample :
    buildArgs "/tmp/i" "/tmp/a b" ".pdf" =
      ["-env:UserInstallation=file:///tmp/i", "--headless", "--convert-to",
       ".pdf", "--outdir", "/tmp/a", "b", "/tmp/a", "b/source"] ∧
    buildArgs "/tmp/i" "/tmp/a b" ".pdf" ≠
      ["-env:UserInstallation=file:///tmp/i", "--headless", "--convert-to",
       ".pdf", "--outdir", "/tmp/a b", "/tmp/a b/source"] := by
  constructor
  · rfl
  · decide

/-- Claim C8 as amended: whenever the two workspace directory paths and
the target format contain no space, the engine argument list is exactly:
the isolated-profile flag for the profile directory, the headless flag,
the convert-to flag with the target format, the output-directory flag
with the staging directory, and the staged input path
`<stagingDir>/source`. -/
theorem convert_args_exact_list (inst temp format : String)
    (h1 : ' ' ∉ inst.data) (h2 : ' ' ∉ temp.data) (h3 : ' ' ∉ format.data) :
    buildArgs inst temp format =
      ["-env:UserInstallation=file://" ++ inst, "--headless", "--convert-to",
       format, "--outdir", temp, temp ++ "/source"] := by
  have hw1 : ' ' ∉ ("-env:UserInstallation=file://" ++ inst).data := by
    rw [String.data_append]
    intro hmem
    rcases List.mem_append.mp hmem with h | h
    · revert h; decide
    · exact h1 h
  have hw7 : ' ' ∉ (temp ++ "/source").data := by
    rw [String.data_append]
    intro hmem
    rcases List.mem_append.mp hmem with h | h
    · exact h2 h
    · revert h; decide
  have hdata :
      ("-env:UserInstallation=file://" ++ inst
        ++ " --headless --convert-to " ++ format
        ++ " --outdir " ++ temp
        ++ " " ++ (temp ++ "/source")).data
      = ("-env:UserInstallation=file://" ++ inst).data ++ ' ' ::
        ("--headless".data ++ ' ' :: ("--convert-to".data ++ ' ' ::
        (format.data ++ ' ' :: ("--outdir".data ++ ' ' ::
        (temp.data ++ ' ' :: (temp ++ "/source").data))))) := by
    have e1 : (" --headless --convert-to " : String).data =
        ' ' :: ("--headless".data ++ ' ' :: ("--convert-to".data ++ [' '])) :=
      rfl
    have e2 : (" --outdir " : String).data = ' ' :: ("--outdir".data ++ [' ']) :=
      rfl
    have e3 : (" " : String).data = [' '] := rfl
    simp only [String.data_append, e1, e2, e3, List.append_assoc,
      List.cons_append, List.nil_append]
  unfold buildArgs jsSplitCh
  rw [hdata,
    splitChAux_append_sep ' ' _ _ hw1,
    splitChAux_append_sep ' ' _ _ (by decide),
    splitChAux_append_sep ' ' _ _ (by decide),
    splitChAux_append_sep ' ' _ _ h3,
    splitChAux_append_sep ' ' _ _ (by decide),
    splitChAux_append_sep ' ' _ _ h2,
    splitChAux_no_sep ' ' _ hw7]
  simp only [List.map_cons, List.map_nil, mk_data_eq]

/-- Witness for C8 (amended): space-free workspace paths produce the exact
seven-element argument list. -/
theorem convert_args_exact_list_witness :
    buildArgs "/tmp/i" "/tmp/t" ".pdf" =
      ["-env:UserInstallation=file:///tmp/i", "--headless", "--convert-to",
       ".pdf", "--outdir", "/tmp/t", "/tmp/t/source"] := by
  have h := convert_args_exact_list "/tmp/i" "/tmp/t" ".pdf"
    (by decide) (by decide) (by decide)
  simpa using h

/-! ### The `messageCreate` attachment handler of `makepdf.ts` -/

/-- One inbound message attachment: its filename and its download URL. -/
structure Attachment where
  name : String
  url : String

/-- Observable actions the per-attachment handler can take. -/
inductive Action
  | fetchUrl (url : String)
  | convertCall
deriving DecidableEq, Repr

/-- The computed extension:
`name.substring(name.lastIndexOf('.') + 1)`. -/
def extOf (name : String) : String :=
  jsSubstringFrom name (jsLastIndexOf name '.' + 1)

/-- The filename of the reply attachment on success:
`name.substring(0, name.lastIndexOf('.')) + '.pdf'`. -/
def newNameOf (name : String) : String :=
  jsSubstring name 0 (jsLastIndexOf name '.') ++ ".pdf"

/-- The per-attachment body of the `messageCreate` handler: skip
attachments with a falsy URL, skip extensions outside the
comma-separated allow-list, otherwise download the attachment and call
`convert` on it (once). -/
def handleAttachment (settingsFormats : String) (a : Attachment) :
    List Action :=
  if a.url = "" then []
  else if extOf a.name ∈ jsSplitCh ',' settingsFormats then
    [Action.fetchUrl a.url, Action.convertCall]
  else []

/-- Counterexample to claim C9: an attachment whose extension is in the
allow-list but whose URL is falsy (the empty string) is skipped, so
"converted exactly once iff the extension is allow-listed" fails. -/
theorem attachment_gating_counterexample :
    extOf "a.docx" ∈ jsSplitCh ',' "docx" ∧
    ¬ ((handleAttachment "docx" ⟨"a.docx", ""⟩).count Action.convertCall = 1 ↔
      extOf "a.docx" ∈ jsSplitCh ',' "docx") := by
  decide

/-- Claim C9 as amended: an attachment is converted exactly once iff its
URL is non-falsy and its extension (the substring after the last dot)
belongs to the comma-separated allow-list; an attachment whose extension
is not in the list triggers no action at all — in particular no
download. -/
theorem attachment_gating_iff (s : String) (a : Attachment) :
    ((handleAttachment s a).count Action.convertCall = 1 ↔
      (a.url ≠ "" ∧ extOf a.name ∈ jsSplitCh ',' s)) ∧
    (extOf a.name ∉ jsSplitCh ',' s → handleAttachment s a = []) := by
  unfold handleAttachment
  by_cases hu : a.url = ""
  · simp [hu]
  · by_cases hm : extOf a.name ∈ jsSplitCh ',' s
    · simp [hu, hm, List.count_cons]
    · simp [hu, hm]

/-- Witness for C9 (amended): a `.pdf` attachment against the allow-list
`docx,odt` triggers no action. -/
theorem attachment_gating_iff_witness :
    handleAttachment "docx,odt" ⟨"report.pdf", "u"⟩ = [] :=
  (attachment_gating_iff "docx,odt" ⟨"report.pdf", "u"⟩).2 (by decide)

/-- When the character does not occur, the scan keeps the initial best
index. -/
theorem lastIdxAux_of_not_mem (c : Char) (l : List Char) (i best : Int)
    (h : c ∉ l) : lastIdxAux c l i best = best := by
  induction l generalizing i best with
  | nil => rfl
  | cons x xs ih =>
    simp only [List.mem_cons, not_or] at h
    unfold lastIdxAux
    rw [if_neg (fun hxc => h.1 hxc.symm)]
    exact ih (i + 1) best h.2

/-- Counterexample to claim C10: for the dotless filename `docx`, the
computed reply-attachment name is `.pdf` — JS `substring`
clamps the `-1` end index to `0` — and not the claimed name-minus-last-
character `doc.pdf`. -/
theorem dotless_name_counterexample :
    '.' ∉ "docx".data ∧ newNameOf "docx" = ".pdf" ∧
    newNameOf "docx" ≠ "doc.pdf" := by
  decide

/-- Claim C10 as amended: for an attachment whose filename contains no
dot, the computed extension is the whole filename — so the file is
converted exactly when its entire name is in the allow-list (given a
non-falsy URL) — and on success the name of the reply attachment is exactly
`.pdf`. -/
theorem dotless_attachment_behavior (name : String) (h : '.' ∉ name.data) :
    extOf name = name ∧
    (∀ (s : String) (a : Attachment), a.name = name → a.url ≠ "" →
      ((handleAttachment s a).count Action.convertCall = 1 ↔
        name ∈ jsSplitCh ',' s)) ∧
    newNameOf name = ".pdf" := by
  have hli : jsLastIndexOf name '.' = -1 :=
    lastIdxAux_of_not_mem '.' name.data 0 (-1) h
  have hext : extOf name = name := by
    unfold extOf jsSubstringFrom jsSubstring clampIdx
    rw [hli]
    norm_num
    rw [if_neg (not_lt.mpr (Int.natCast_nonneg _)),
      show name.length = name.data.length from rfl, List.take_length]
  refine ⟨hext, ?_, ?_⟩
  · intro s a hname hurl
    unfold handleAttachment
    rw [if_neg hurl, hname, hext]
    by_cases hm : name ∈ jsSplitCh ',' s
    · simp [hm, List.count_cons]
    · simp [hm]
  · unfold newNameOf jsSubstring clampIdx
    rw [hli]
    norm_num
    decide

/-- Witness for C10 (amended): the dotless filename `odt` yields extension
`odt` and reply name `.pdf`. -/
theorem dotless_attachment_behavior_witness :
    extOf "odt" = "odt" ∧ newNameOf "odt" = ".pdf" :=
  ⟨(dotless_attachment_behavior "odt" (by decide)).1,
   (dotless_attachment_behavior "odt" (by decide)).2.2⟩

end MakePDF
